import Mathlib

/-!
Shallow embedding of `transforms.py`: a set of data-augmentation transforms
(one-hot labels, channel shuffle, label smoothing, mixup, a dummy doubling
transform, and two linear-projection transforms).  Tensors are modelled as
(nested) lists of rationals, labels as integers or vectors, and every random
draw (a uniform sample, a shuffle permutation, the Beta mixing coefficients)
is passed explicitly as an argument.  Call tuples `(x, label, *extra)` are
modelled as `List Val` so that tuple arity is observable.
-/

namespace DN3

/-- A value occurring in a transform call tuple: an integer scalar,
a rational scalar, a rank-1 tensor or a rank-2 tensor. -/
inductive Val where
  | i : ℤ → Val
  | q : ℚ → Val
  | vec : List ℚ → Val
  | mat : List (List ℚ) → Val
deriving DecidableEq, Repr

/-- `tf.one_hot(label, depth)`: a length-`depth` vector with a 1 at index
`label` and 0 elsewhere (all zeros when `label` is out of range). -/
def one_hot (label : ℤ) (depth : ℕ) : List ℚ :=
  (List.range depth).map (fun (i : ℕ) => if (i : ℤ) = label then 1 else 0)

/-- `OneHotLabels`: stores `max_classes` (source lines 20-21, no validation). -/
structure OneHotLabels where
  max_classes : ℤ
deriving DecidableEq, Repr

/-- `OneHotLabels.__init__`: just stores the parameter, never fails. -/
def OneHotLabels.init (m : ℤ) : Except String OneHotLabels :=
  .ok ⟨m⟩

/-- `OneHotLabels.__call__`: `return (x, tf.one_hot(label, self.max_classes), *args)`. -/
def OneHotLabels.call (c : OneHotLabels) (x : Val) (label : ℤ) (extra : List Val) :
    List Val :=
  x :: Val.vec (one_hot label c.max_classes.toNat) :: extra

/-- `tf.cond(pred, a, b)`: both branch values are present (evaluated), the
predicate selects which one is returned. -/
def tfCond {α : Type} (pred : Bool) (tBranch fBranch : α) : α :=
  if pred then tBranch else fBranch

/-- `ChannelShuffle`: stores the probability `p` (source lines 29-31). -/
structure ChannelShuffle where
  p : ℚ
deriving DecidableEq, Repr

/-- `ChannelShuffle.__init__`: `assert 0 <= p <= 1`, then store `p`. -/
def ChannelShuffle.init (p : ℚ) : Except String ChannelShuffle :=
  if 0 ≤ p ∧ p ≤ 1 then .ok ⟨p⟩ else .error "assert 0 <= p <= 1"

/-- `tf.random.shuffle(x)` with the drawn permutation `σ` made explicit:
row `i` of the result is row `σ i` of `x`. -/
def shuffleRows (σ : List ℕ) (x : List (List ℚ)) : List (List ℚ) :=
  σ.map (fun i => x.getD i [])

/-- `ChannelShuffle.__call__`: the uniform draw `u` is explicit.
`return (tf.cond(u < self.p, tf.random.shuffle(x), x), label, *args)`. -/
def ChannelShuffle.call (c : ChannelShuffle) (u : ℚ) (σ : List ℕ)
    (x : List (List ℚ)) (label : Val) (extra : List Val) : List Val :=
  Val.mat (tfCond (decide (u < c.p)) (shuffleRows σ x) x) :: label :: extra

/-- `LabelSmoothing`: stores `targets` and `gamma` (source lines 41-43). -/
structure LabelSmoothing where
  targets : ℤ
  gamma : ℚ
deriving DecidableEq, Repr

/-- `LabelSmoothing.__init__`: just stores the parameters, never fails. -/
def LabelSmoothing.init (targets : ℤ) (gamma : ℚ) : Except String LabelSmoothing :=
  .ok ⟨targets, gamma⟩

/-- The smoothed label vector of `LabelSmoothing.__call__` (source lines 46-47):
`label = tf.one_hot(label, targets)` followed by
`label - gamma * (label - 1 / (targets + 1))` elementwise. -/
def LabelSmoothing.smoothed (c : LabelSmoothing) (label : ℤ) : List ℚ :=
  (one_hot label c.targets.toNat).map
    (fun v => v - c.gamma * (v - 1 / ((c.targets : ℚ) + 1)))

/-- `LabelSmoothing.__call__`: `return (x, label, *args)` with the smoothed label. -/
def LabelSmoothing.call (c : LabelSmoothing) (x : Val) (label : ℤ) (extra : List Val) :
    List Val :=
  x :: Val.vec (c.smoothed label) :: extra

/-- `tf.gather(t, perm, axis=0)`: row `i` of the result is row `perm i` of `t`. -/
def gatherRows (t : List (List ℚ)) (perm : List ℕ) : List (List ℚ) :=
  perm.map (fun j => t.getD j [])

/-- Broadcast multiplication `lam_exp * t` where `lam_exp` has shape
`[N, 1, ..., 1]`: row `i` of `t` is scaled by `lam i`. -/
def scaleRows (lam : List ℚ) (t : List (List ℚ)) : List (List ℚ) :=
  List.zipWith (fun l row => row.map (fun v => l * v)) lam t

/-- Elementwise tensor addition. -/
def addRows (a b : List (List ℚ)) : List (List ℚ) :=
  List.zipWith (List.zipWith (fun v w => v + w)) a b

/-- One iteration of the `Mixup.__call__` loop body (source line 76):
`lam_exp * arg + (1 - lam_exp) * tf.gather(arg, permutation, axis=0)`. -/
def mixTensor (lam : List ℚ) (perm : List ℕ) (t : List (List ℚ)) : List (List ℚ) :=
  addRows (scaleRows lam t) (scaleRows (lam.map (fun l => 1 - l)) (gatherRows t perm))

/-- `Mixup`: stores the Beta concentration `rate` (source lines 61-63). -/
structure Mixup where
  rate : ℚ
deriving DecidableEq, Repr

/-- `Mixup.__call__` with the Beta draws `lam` and the permutation `perm`
explicit: every tensor in `args` is mixed with the same `lam` and `perm`,
and the tuple is returned with its length unchanged (source lines 65-78). -/
def Mixup.apply (_m : Mixup) (lam : List ℚ) (perm : List ℕ)
    (args : List (List (List ℚ))) : List (List (List ℚ)) :=
  args.map (mixTensor lam perm)

/-- `DummyTransform.__call__`: `return tf.multiply(x, 2), label` — a pair,
the extras are dropped (source lines 83-84). -/
def DummyTransform.call (x : List (List ℚ)) (label : Val) (extra : List Val) :
    List Val :=
  [Val.mat (x.map (fun row => row.map (fun v => v * 2))), label]

/-- `tf.cast(M, tf.float32)` on an integer matrix. -/
def castMat (M : List (List ℤ)) : List (List ℚ) :=
  M.map (fun row => row.map (fun a => (a : ℚ)))

/-- Column `j` of a matrix. -/
def matCol (B : List (List ℚ)) (j : ℕ) : List ℚ :=
  B.map (fun row => row.getD j 0)

/-- `tf.linalg.matmul(A, B)`: entry `(i, j)` is the dot product of row `i`
of `A` with column `j` of `B`. -/
def matmul (A B : List (List ℚ)) : List (List ℚ) :=
  A.map (fun row =>
    (List.range (B.headD []).length).map (fun j =>
      (List.zipWith (fun a b => a * b) row (matCol B j)).sum))

/-- `ICATransform`: stores the unmixing matrix, named `input` in the source
(source lines 89-90). -/
structure ICATransform where
  input : List (List ℤ)
deriving DecidableEq, Repr

/-- `ICATransform.__call__`:
`return tf.linalg.matmul(tf.cast(self.input, tf.float32), x), label`. -/
def ICATransform.call (c : ICATransform) (x : List (List ℚ)) (label : Val)
    (extra : List Val) : List Val :=
  [Val.mat (matmul (castMat c.input) x), label]

/-- `EATransform`: stores the reference matrix `ref_matrix` (source lines 98-99). -/
structure EATransform where
  ref_matrix : List (List ℤ)
deriving DecidableEq, Repr

/-- `EATransform.__call__`:
`return tf.linalg.matmul(tf.cast(self.ref_matrix, tf.float32), x), label`. -/
def EATransform.call (c : EATransform) (x : List (List ℚ)) (label : Val)
    (extra : List Val) : List Val :=
  [Val.mat (matmul (castMat c.ref_matrix) x), label]

/-! ## Helper lemmas about list indexing -/

lemma getD_map {α β : Type} (f : α → β) (l : List α) (i : ℕ) (hi : i < l.length)
    (da : α) (db : β) : (l.map f).getD i db = f (l.getD i da) := by
  induction l generalizing i with
  | nil => simp at hi
  | cons a l ih =>
    cases i with
    | zero => rfl
    | succ n =>
      simp only [List.map_cons, List.getD_cons_succ]
      exact ih n (by simpa using hi)

lemma getD_zipWith {α β γ : Type} (f : α → β → γ) (as : List α) (bs : List β)
    (i : ℕ) (ha : i < as.length) (hb : i < bs.length) (da : α) (db : β) (dc : γ) :
    (List.zipWith f as bs).getD i dc = f (as.getD i da) (bs.getD i db) := by
  induction as generalizing bs i with
  | nil => simp at ha
  | cons a as ih =>
    cases bs with
    | nil => simp at hb
    | cons b bs =>
      cases i with
      | zero => rfl
      | succ n =>
        simp only [List.zipWith_cons_cons, List.getD_cons_succ]
        exact ih bs n (by simpa using ha) (by simpa using hb)

lemma getD_mem {α : Type} (l : List α) (i : ℕ) (hi : i < l.length) (d : α) :
    l.getD i d ∈ l := by
  rw [List.getD_eq_getElem?_getD, List.getElem?_eq_getElem hi]
  exact List.getElem_mem hi

lemma getD_range (n i : ℕ) (hi : i < n) (d : ℕ) : (List.range n).getD i d = i := by
  rw [List.getD_eq_getElem?_getD, List.getElem?_range hi]
  rfl

/-! ## Properties of the one-hot encoding -/

lemma one_hot_length (label : ℤ) (n : ℕ) : (one_hot label n).length = n := by
  simp [one_hot]

lemma one_hot_getD (label : ℤ) (n i : ℕ) (hi : i < n) :
    (one_hot label n).getD i 0 = if (i : ℤ) = label then 1 else 0 := by
  unfold one_hot
  rw [getD_map _ _ i (by simpa using hi) 0, getD_range n i hi]

lemma one_hot_sum_of_out_of_range (label : ℤ) (n : ℕ)
    (h : ∀ i : ℕ, i < n → (i : ℤ) ≠ label) : (one_hot label n).sum = 0 := by
  induction n with
  | zero => rfl
  | succ n ih =>
    have h1 : (one_hot label n).sum = 0 := ih (fun i hi => h i (Nat.lt_succ_of_lt hi))
    unfold one_hot at h1 ⊢
    rw [List.range_succ, List.map_append, List.sum_append, h1]
    simp [h n (Nat.lt_succ_self n)]

lemma one_hot_sum (label : ℤ) (h0 : 0 ≤ label) :
    ∀ n : ℕ, label < n → (one_hot label n).sum = 1 := by
  intro n
  induction n with
  | zero => intro h; omega
  | succ n ih =>
    intro h
    unfold one_hot
    rw [List.range_succ, List.map_append, List.sum_append]
    by_cases hc : (n : ℤ) = label
    · have hz : (one_hot label n).sum = 0 :=
        one_hot_sum_of_out_of_range label n (by intro i hi; omega)
      unfold one_hot at hz
      rw [hz]
      simp [hc]
    · have hs : (one_hot label n).sum = 1 := ih (by omega)
      unfold one_hot at hs
      rw [hs]
      simp [hc]

/-! ## Claim theorems -/

/-- C3: for `0 ≤ label < max_classes`, `OneHotLabels.__call__` returns
`(x, one_hot(label, max_classes), *extra)` with `x` and the extras unchanged,
and the label vector has length `max_classes`, is 1 at index `label`,
0 at every other index, and sums to 1. -/
theorem oneHotLabels_correct (m : ℤ) (x : Val) (label : ℤ) (extra : List Val)
    (h0 : 0 ≤ label) (h1 : label < m) (i : ℕ) (hi : i < m.toNat)
    (hne : (i : ℤ) ≠ label) :
    OneHotLabels.call ⟨m⟩ x label extra
      = x :: Val.vec (one_hot label m.toNat) :: extra ∧
    (one_hot label m.toNat).length = m.toNat ∧
    (one_hot label m.toNat).getD label.toNat 0 = 1 ∧
    (one_hot label m.toNat).getD i 0 = 0 ∧
    (one_hot label m.toNat).sum = 1 := by
  refine ⟨rfl, one_hot_length label m.toNat, ?_, ?_, ?_⟩
  · rw [one_hot_getD label m.toNat label.toNat (by omega)]
    simp [Int.toNat_of_nonneg h0]
  · rw [one_hot_getD label m.toNat i hi]
    simp [hne]
  · exact one_hot_sum label h0 m.toNat (by omega)

/-- Witness for C3 at `max_classes = 3`, `label = 1`, other index `i = 2`. -/
theorem oneHotLabels_correct_witness :
    (0 ≤ (1 : ℤ) ∧ (1 : ℤ) < 3 ∧ (2 : ℕ) < (3 : ℤ).toNat ∧ ((2 : ℕ) : ℤ) ≠ 1) ∧
    (OneHotLabels.call ⟨3⟩ (Val.i 9) 1 [Val.q 7]
        = Val.i 9 :: Val.vec (one_hot 1 (3 : ℤ).toNat) :: [Val.q 7] ∧
      (one_hot 1 (3 : ℤ).toNat).length = (3 : ℤ).toNat ∧
      (one_hot 1 (3 : ℤ).toNat).getD (1 : ℤ).toNat 0 = 1 ∧
      (one_hot 1 (3 : ℤ).toNat).getD 2 0 = 0 ∧
      (one_hot 1 (3 : ℤ).toNat).sum = 1) :=
  ⟨⟨by decide, by decide, by decide, by decide⟩,
    oneHotLabels_correct 3 (Val.i 9) 1 [Val.q 7] (by decide) (by decide) 2
      (by decide) (by decide)⟩

/-- C7: constructing a `ChannelShuffle` succeeds exactly when `0 ≤ p ≤ 1`
(the `assert 0 <= p <= 1` in `__init__`). -/
theorem channelShuffle_init_iff (p : ℚ) :
    (ChannelShuffle.init p).isOk = true ↔ (0 ≤ p ∧ p ≤ 1) := by
  by_cases h : 0 ≤ p ∧ p ≤ 1
  · simp [ChannelShuffle.init, h, Except.isOk, Except.toBool]
  · simp [ChannelShuffle.init, h, Except.isOk, Except.toBool]

/-- C8 counterexample: constructing `OneHotLabels` with `max_classes = 0` and
`LabelSmoothing` with `targets = 0` both succeed; no validation is performed,
contradicting the claim that construction fails fast. -/
theorem init_no_validation_cex :
    (OneHotLabels.init 0).isOk = true ∧ (LabelSmoothing.init 0 (1/10)).isOk = true :=
  ⟨rfl, rfl⟩

/-- C8 amended: `OneHotLabels.__init__` and `LabelSmoothing.__init__` perform
no validation at all — construction succeeds for every argument, including
non-positive class counts. -/
theorem init_no_validation (m t : ℤ) (γ : ℚ) :
    (OneHotLabels.init m).isOk = true ∧ (LabelSmoothing.init t γ).isOk = true :=
  ⟨rfl, rfl⟩

/-- C9: `ICATransform` and `EATransform` built from the same matrix `M` return
identical results on every call, namely `(matmul(cast(M), x), label)`. -/
theorem ica_ea_equal (M : List (List ℤ)) (x : List (List ℚ)) (label : Val)
    (extra : List Val) :
    ICATransform.call ⟨M⟩ x label extra = EATransform.call ⟨M⟩ x label extra ∧
    ICATransform.call ⟨M⟩ x label extra = [Val.mat (matmul (castMat M) x), label] :=
  ⟨rfl, rfl⟩

/-- C5 counterexample: `DummyTransform.__call__` on an input tuple of arity 3
(one extra element) returns a tuple of arity 2, so arity is not preserved. -/
theorem dummy_arity_cex :
    (DummyTransform.call [[1]] (Val.i 0) [Val.i 7]).length
      ≠ 2 + ([Val.i 7] : List Val).length := by
  decide

/-- C5 amended: `OneHotLabels`, `ChannelShuffle`, `LabelSmoothing` and `Mixup`
preserve tuple arity, while `DummyTransform`, `ICATransform` and `EATransform`
always return exactly 2 elements, dropping any extras. -/
theorem arity_behaviour (c1 : OneHotLabels) (c2 : ChannelShuffle)
    (c3 : LabelSmoothing) (m : Mixup) (mi : ICATransform) (me : EATransform)
    (x : Val) (xm : List (List ℚ)) (labelI : ℤ) (labelV : Val) (extra : List Val)
    (u : ℚ) (σ : List ℕ) (lam : List ℚ) (perm : List ℕ)
    (args : List (List (List ℚ))) :
    (c1.call x labelI extra).length = 2 + extra.length ∧
    (c2.call u σ xm labelV extra).length = 2 + extra.length ∧
    (c3.call x labelI extra).length = 2 + extra.length ∧
    (m.apply lam perm args).length = args.length ∧
    (DummyTransform.call xm labelV extra).length = 2 ∧
    (mi.call xm labelV extra).length = 2 ∧
    (me.call xm labelV extra).length = 2 := by
  refine ⟨?_, ?_, ?_, ?_, rfl, rfl, rfl⟩
  · simp [OneHotLabels.call]
    omega
  · simp [ChannelShuffle.call]
    omega
  · simp [LabelSmoothing.call]
    omega
  · simp [Mixup.apply]

/-- C4: a `ChannelShuffle` constructed with `p = 0` never shuffles — for every
outcome `u ∈ [0, 1)` of the uniform draw and every shuffle permutation, the
input passes through unchanged, as do the label and the extras. -/
theorem channelShuffle_p0_id (c : ChannelShuffle)
    (hc : ChannelShuffle.init 0 = .ok c) (u : ℚ) (hu : 0 ≤ u) (σ : List ℕ)
    (x : List (List ℚ)) (label : Val) (extra : List Val) :
    ChannelShuffle.call c u σ x label extra = Val.mat x :: label :: extra := by
  have hini : ChannelShuffle.init 0 = .ok ⟨0⟩ := by norm_num [ChannelShuffle.init]
  rw [hini] at hc
  injection hc with h
  subst h
  simp [ChannelShuffle.call, tfCond, decide_eq_false (not_lt.mpr hu)]

/-- Witness for C4 at `u = 1/2`, a transposing permutation and a 2-channel input. -/
theorem channelShuffle_p0_id_witness :
    (ChannelShuffle.init 0 = .ok ⟨0⟩ ∧ (0 : ℚ) ≤ 1/2) ∧
    ChannelShuffle.call ⟨0⟩ (1/2) [1, 0] [[1], [2]] (Val.i 5) [Val.q 7]
      = Val.mat [[1], [2]] :: Val.i 5 :: [Val.q 7] :=
  ⟨⟨by norm_num [ChannelShuffle.init], by norm_num⟩,
    channelShuffle_p0_id ⟨0⟩ (by norm_num [ChannelShuffle.init]) (1/2)
      (by norm_num) [1, 0] [[1], [2]] (Val.i 5) [Val.q 7]⟩

/-- C6: for `targets = 3`, `gamma = 0.1`, `label = 1`, the smoothed label
vector is exactly `[0.025, 0.925, 0.025]` in rational arithmetic, with
`0.925 = 0.9 * 1 + 0.1 * (1/4)` and `0.025 = 0.9 * 0 + 0.1 * (1/4)`. -/
theorem labelSmoothing_concrete :
    LabelSmoothing.smoothed ⟨3, 0.1⟩ 1 = [0.025, 0.925, 0.025] ∧
    (0.925 : ℚ) = 0.9 * 1 + 0.1 * (1/4) ∧
    (0.025 : ℚ) = 0.9 * 0 + 0.1 * (1/4) := by
  refine ⟨?_, by norm_num, by norm_num⟩
  have hr : List.range (Int.toNat 3) = [0, 1, 2] := by decide
  unfold LabelSmoothing.smoothed one_hot
  norm_num [hr]

lemma sum_map_affine (l : List ℚ) (a b : ℚ) :
    (l.map (fun v => a * v + b)).sum = a * l.sum + l.length * b := by
  induction l with
  | nil => simp
  | cons v l ih =>
    simp only [List.map_cons, List.sum_cons, List.length_cons, ih]
    push_cast
    ring

/-- C2: for `0 < targets` and `0 ≤ label < targets`, `LabelSmoothing.__call__`
returns `(x, smoothed, *extra)` where the smoothed vector has length `targets`
and entry `i` equals `(1 - gamma) * one_hot(label)[i] + gamma / (targets + 1)`,
the elementwise form of `v - gamma * (v - 1/(targets+1))`. -/
theorem labelSmoothing_pointwise (t : ℤ) (γ : ℚ) (x : Val) (label : ℤ)
    (extra : List Val) (h0 : 0 < t) (hl0 : 0 ≤ label) (hl1 : label < t)
    (i : ℕ) (hi : i < t.toNat) :
    LabelSmoothing.call ⟨t, γ⟩ x label extra
      = x :: Val.vec (LabelSmoothing.smoothed ⟨t, γ⟩ label) :: extra ∧
    (LabelSmoothing.smoothed ⟨t, γ⟩ label).length = t.toNat ∧
    (LabelSmoothing.smoothed ⟨t, γ⟩ label).getD i 0
      = (1 - γ) * (if (i : ℤ) = label then 1 else 0) + γ / ((t : ℚ) + 1) := by
  refine ⟨rfl, ?_, ?_⟩
  · simp [LabelSmoothing.smoothed, one_hot]
  · have e1 : (LabelSmoothing.smoothed ⟨t, γ⟩ label).getD i 0
        = (fun v => v - γ * (v - 1 / ((t : ℚ) + 1)))
            ((one_hot label t.toNat).getD i 0) :=
      getD_map _ _ i (by rw [one_hot_length]; exact hi) 0 0
    rw [e1, one_hot_getD label t.toNat i hi]
    by_cases hc : (i : ℤ) = label
    · simp only [hc, if_pos]
      ring
    · simp only [if_neg hc]
      ring

/-- Witness for C2 at `targets = 3`, `gamma = 1/10`, `label = 1`, `i = 1`. -/
theorem labelSmoothing_pointwise_witness :
    (0 < (3 : ℤ) ∧ 0 ≤ (1 : ℤ) ∧ (1 : ℤ) < 3 ∧ (1 : ℕ) < (3 : ℤ).toNat) ∧
    (LabelSmoothing.call ⟨3, 1/10⟩ (Val.i 4) 1 [Val.q 2]
        = Val.i 4 :: Val.vec (LabelSmoothing.smoothed ⟨3, 1/10⟩ 1) :: [Val.q 2] ∧
      (LabelSmoothing.smoothed ⟨3, 1/10⟩ 1).length = (3 : ℤ).toNat ∧
      (LabelSmoothing.smoothed ⟨3, 1/10⟩ 1).getD 1 0
        = (1 - 1/10) * (if ((1 : ℕ) : ℤ) = 1 then 1 else 0)
            + (1/10) / (((3 : ℤ) : ℚ) + 1)) :=
  ⟨⟨by decide, by decide, by decide, by decide⟩,
    labelSmoothing_pointwise 3 (1/10) (Val.i 4) 1 [Val.q 2] (by decide)
      (by decide) (by decide) 1 (by decide)⟩

/-- C10: for `0 < targets` and `0 ≤ label < targets`, the smoothed label
vector sums exactly to `1 - gamma / (targets + 1)`, hence it sums to 1
precisely when `gamma = 0`. -/
theorem labelSmoothing_sum (t : ℤ) (γ : ℚ) (label : ℤ)
    (h0 : 0 < t) (hl0 : 0 ≤ label) (hl1 : label < t) :
    (LabelSmoothing.smoothed ⟨t, γ⟩ label).sum = 1 - γ / ((t : ℚ) + 1) ∧
    ((LabelSmoothing.smoothed ⟨t, γ⟩ label).sum = 1 ↔ γ = 0) := by
  have htq : (0 : ℚ) < (t : ℚ) := by exact_mod_cast h0
  have ht : ((t : ℚ) + 1) ≠ 0 := by linarith
  have hfun : (fun v : ℚ => v - γ * (v - 1 / ((t : ℚ) + 1)))
      = fun v : ℚ => (1 - γ) * v + γ * (1 / ((t : ℚ) + 1)) := by
    funext v
    ring
  have hcast : ((t.toNat : ℕ) : ℚ) = (t : ℚ) := by
    exact_mod_cast Int.toNat_of_nonneg h0.le
  have hsum : (LabelSmoothing.smoothed ⟨t, γ⟩ label).sum = 1 - γ / ((t : ℚ) + 1) := by
    simp only [LabelSmoothing.smoothed]
    rw [hfun, sum_map_affine, one_hot_sum label hl0 t.toNat (by omega),
      one_hot_length, hcast]
    field_simp
    ring
  refine ⟨hsum, ?_⟩
  rw [hsum]
  constructor
  · intro h
    have h2 : γ / ((t : ℚ) + 1) = 0 := by linarith
    rcases div_eq_zero_iff.mp h2 with h3 | h3
    · exact h3
    · exact absurd h3 ht
  · intro h
    rw [h]
    simp

/-- Witness for C10 at `targets = 3`, `gamma = 1/10`, `label = 1`. -/
theorem labelSmoothing_sum_witness :
    (0 < (3 : ℤ) ∧ 0 ≤ (1 : ℤ) ∧ (1 : ℤ) < 3) ∧
    ((LabelSmoothing.smoothed ⟨3, 1/10⟩ 1).sum = 1 - (1/10) / (((3 : ℤ) : ℚ) + 1) ∧
      ((LabelSmoothing.smoothed ⟨3, 1/10⟩ 1).sum = 1 ↔ (1/10 : ℚ) = 0)) :=
  ⟨⟨by decide, by decide, by decide⟩,
    labelSmoothing_sum 3 (1/10) 1 (by decide) (by decide) (by decide)⟩

/-- The entry at position `(i, j)` of one mixed tensor: row `i` is the convex
combination of input rows `i` and `perm i` with coefficient `lam i`. -/
lemma mixTensor_getD (lam : List ℚ) (perm : List ℕ) (t : List (List ℚ)) (N d : ℕ)
    (hlam : lam.length = N) (hperm : perm.length = N) (hpin : ∀ j ∈ perm, j < N)
    (htlen : t.length = N) (hrows : ∀ row ∈ t, row.length = d)
    (i j : ℕ) (hi : i < N) (hj : j < d) :
    ((mixTensor lam perm t).getD i []).getD j 0
      = lam.getD i 0 * ((t.getD i []).getD j 0)
        + (1 - lam.getD i 0) * ((t.getD (perm.getD i 0) []).getD j 0) := by
  have hperm_i : perm.getD i 0 < N := hpin _ (getD_mem perm i (by omega) 0)
  have hrl_i : ((t.getD i []).length) = d := hrows _ (getD_mem t i (by omega) [])
  have hrl_p : ((t.getD (perm.getD i 0) []).length) = d :=
    hrows _ (getD_mem t (perm.getD i 0) (by omega) [])
  have e1 : (mixTensor lam perm t).getD i []
      = List.zipWith (fun v w => v + w)
          ((scaleRows lam t).getD i [])
          ((scaleRows (lam.map (fun l => 1 - l)) (gatherRows t perm)).getD i []) :=
    getD_zipWith _ _ _ i (by simp [scaleRows]; omega)
      (by simp [scaleRows, gatherRows]; omega) [] [] []
  have e2 : (scaleRows lam t).getD i []
      = (t.getD i []).map (fun v => lam.getD i 0 * v) :=
    getD_zipWith _ lam t i (by omega) (by omega) 0 [] []
  have e3 : (scaleRows (lam.map (fun l => 1 - l)) (gatherRows t perm)).getD i []
      = ((gatherRows t perm).getD i []).map
          (fun v => (lam.map (fun l => 1 - l)).getD i 0 * v) :=
    getD_zipWith _ _ _ i (by simp; omega) (by simp [gatherRows]; omega) 0 [] []
  have e4 : (gatherRows t perm).getD i [] = t.getD (perm.getD i 0) [] :=
    getD_map _ perm i (by omega) 0 []
  have e5 : (lam.map (fun l => 1 - l)).getD i 0 = 1 - lam.getD i 0 :=
    getD_map _ lam i (by omega) 0 0
  rw [e1, e2, e3, e4, e5]
  have e6 : (List.zipWith (fun v w => v + w)
        ((t.getD i []).map (fun v => lam.getD i 0 * v))
        ((t.getD (perm.getD i 0) []).map (fun v => (1 - lam.getD i 0) * v))).getD j 0
      = ((t.getD i []).map (fun v => lam.getD i 0 * v)).getD j 0
        + ((t.getD (perm.getD i 0) []).map (fun v => (1 - lam.getD i 0) * v)).getD j 0 :=
    getD_zipWith _ _ _ j (by rw [List.length_map]; omega)
      (by rw [List.length_map]; omega) 0 0 0
  rw [e6, getD_map _ _ j (by omega) 0 0, getD_map _ _ j (by omega) 0 0]

/-- C1: `Mixup.__call__` on a tuple of batch-`N` tensors, with `lam` the `N`
Beta draws and `perm` the permutation drawn for that call, returns a tuple of
the same length whose `k`-th tensor has entry `(i, j)` equal to
`lam i * t i j + (1 - lam i) * t (perm i) j` for the `k`-th input tensor `t`
(the broadcast form `lam_exp * t + (1 - lam_exp) * gather(t, perm)`). -/
theorem mixup_correct (m : Mixup) (lam : List ℚ) (perm : List ℕ)
    (args : List (List (List ℚ))) (N d : ℕ)
    (hlam : lam.length = N) (hperm : perm.length = N)
    (hpin : ∀ j ∈ perm, j < N)
    (hbatch : ∀ t ∈ args, t.length = N)
    (hrows : ∀ t ∈ args, ∀ row ∈ t, row.length = d)
    (k i j : ℕ) (hk : k < args.length) (hi : i < N) (hj : j < d) :
    (Mixup.apply m lam perm args).length = args.length ∧
    (((Mixup.apply m lam perm args).getD k []).getD i []).getD j 0
      = lam.getD i 0 * (((args.getD k []).getD i []).getD j 0)
        + (1 - lam.getD i 0) * (((args.getD k []).getD (perm.getD i 0) []).getD j 0) := by
  refine ⟨by simp [Mixup.apply], ?_⟩
  have e1 : (Mixup.apply m lam perm args).getD k []
      = mixTensor lam perm (args.getD k []) :=
    getD_map (mixTensor lam perm) args k hk [] []
  rw [e1]
  exact mixTensor_getD lam perm (args.getD k []) N d hlam hperm hpin
    (hbatch _ (getD_mem args k hk [])) (hrows _ (getD_mem args k hk [])) i j hi hj

/-- Witness for C1: one 2×2 tensor, `lam = [1/4, 3/4]`, `perm = [1, 0]`,
checking entry `(0, 1)` of the single output tensor. -/
theorem mixup_correct_witness :
    (([1/4, 3/4] : List ℚ).length = 2 ∧ ([1, 0] : List ℕ).length = 2 ∧
      (∀ j ∈ ([1, 0] : List ℕ), j < 2) ∧
      (∀ t ∈ ([[[1, 2], [3, 4]]] : List (List (List ℚ))), t.length = 2) ∧
      (∀ t ∈ ([[[1, 2], [3, 4]]] : List (List (List ℚ))), ∀ row ∈ t, row.length = 2) ∧
      (0 : ℕ) < ([[[1, 2], [3, 4]]] : List (List (List ℚ))).length ∧
      (0 : ℕ) < 2 ∧ (1 : ℕ) < 2) ∧
    ((Mixup.apply ⟨1⟩ [1/4, 3/4] [1, 0] [[[1, 2], [3, 4]]]).length
        = ([[[1, 2], [3, 4]]] : List (List (List ℚ))).length ∧
      (((Mixup.apply ⟨1⟩ [1/4, 3/4] [1, 0] [[[1, 2], [3, 4]]]).getD 0 []).getD 0 []).getD 1 0
        = ([1/4, 3/4] : List ℚ).getD 0 0
            * ((([[[1, 2], [3, 4]]] : List (List (List ℚ))).getD 0 []).getD 0 []).getD 1 0
          + (1 - ([1/4, 3/4] : List ℚ).getD 0 0)
            * ((([[[1, 2], [3, 4]]] : List (List (List ℚ))).getD 0 []).getD
                (([1, 0] : List ℕ).getD 0 0) []).getD 1 0) :=
  ⟨⟨rfl, rfl, by decide, by simp, by simp, by simp, by decide, by decide⟩,
    mixup_correct ⟨1⟩ [1/4, 3/4] [1, 0] [[[1, 2], [3, 4]]] 2 2 rfl rfl
      (by decide) (by simp) (by simp) 0 0 1 (by simp) (by decide) (by decide)⟩

end DN3
